import Mathlib

/-!
Verification of the Frunna weekly-plan synthesis pipeline.

The TypeScript source is shallowly embedded: strings are Lean `String`s
manipulated through explicit `List Char` primitives modelling the JavaScript
string operations (ASCII case folding, substring containment, trimming,
splitting); JavaScript numbers appearing in the pipeline are embedded as
`Nat`/`Int` (the run-day scoring rule multiplies the source's decimal weights
by 100 so that all scores are integers, which preserves the comparison order
for every realistic table); JavaScript array-index assignment, which can
extend an array, is modelled by `setCell`; external collaborators
(the generative model, `JSON.parse`, the prompt builder) are parameters of
the orchestrator model, as the specification designates them collaborators.
-/

/-- ASCII lowercase of a string, modelling JavaScript `toLowerCase` on the
ASCII inputs the pipeline handles. -/
def lowerStr (s : String) : String :=
  String.mk (s.data.map Char.toLower)

/-- Boolean list-prefix test, used to model substring search. -/
def isPrefixB : List Char → List Char → Bool
  | [], _ => true
  | _ :: _, [] => false
  | a :: as, b :: bs => a == b && isPrefixB as bs

/-- Boolean infix (contiguous substring) test on character lists. -/
def isInfixB (pat : List Char) : List Char → Bool
  | [] => pat.isEmpty
  | c :: cs => isPrefixB pat (c :: cs) || isInfixB pat cs

/-- Model of JavaScript `String.prototype.includes`. -/
def containsSub (s pat : String) : Bool :=
  isInfixB pat.data s.data

/-- Trim whitespace from both ends of a character list. -/
def trimChars (cs : List Char) : List Char :=
  (((cs.dropWhile Char.isWhitespace).reverse.dropWhile Char.isWhitespace).reverse)

/-- Model of JavaScript `String.prototype.trim`. -/
def strTrim (s : String) : String :=
  String.mk (trimChars s.data)

/-- Split a character list on a separator character; always returns at least
one piece, modelling JavaScript `split`. -/
def splitOnChar (sep : Char) : List Char → List (List Char)
  | [] => [[]]
  | c :: cs =>
    let rest := splitOnChar sep cs
    if c == sep then [] :: rest
    else
      match rest with
      | [] => [[c]]
      | p :: ps => (c :: p) :: ps

/-- Join strings with a separator, modelling JavaScript `Array.join`. -/
def joinWith (sep : String) : List String → String
  | [] => ""
  | [x] => x
  | x :: y :: rest => x ++ sep ++ joinWith sep (y :: rest)

/-- Numeric value of a digit run. -/
def digitsToNat (ds : List Char) : Nat :=
  ds.foldl (fun acc c => acc * 10 + (c.toNat - 48)) 0

/-- Model of JavaScript `Number.parseInt(s, 10)`: skip leading whitespace,
optional sign, then a maximal digit run; `none` models `NaN`. -/
def jsParseInt (s : String) : Option Int :=
  let cs := s.data.dropWhile Char.isWhitespace
  match cs with
  | '-' :: rest =>
    let ds := rest.takeWhile Char.isDigit
    if ds.isEmpty then none else some (-(digitsToNat ds : Int))
  | '+' :: rest =>
    let ds := rest.takeWhile Char.isDigit
    if ds.isEmpty then none else some (digitsToNat ds : Int)
  | rest =>
    let ds := rest.takeWhile Char.isDigit
    if ds.isEmpty then none else some (digitsToNat ds : Int)

/-- JavaScript array-index assignment `row[i] = v`: in-place update when `i`
is in range, otherwise the array is extended (holes read back as empty). -/
def setCell (row : List String) (i : Nat) (v : String) : List String :=
  if i < row.length then row.set i v
  else row ++ List.replicate (i - row.length) "" ++ [v]

/-- Canonical table of the pipeline: ordered headers and ordered string rows
(source type `PlanTable`). -/
structure PlanTable where
  headers : List String
  rows : List (List String)
deriving DecidableEq

/-- Header lookup by case-insensitive equality (source
`headers.findIndex((h) => h.toLowerCase() === name)`). -/
def findHeaderEq (headers : List String) (name : String) : Option Nat :=
  headers.findIdx? (fun h => lowerStr h == name)

/-- Header lookup by case-insensitive containment (source
`headers.findIndex((h) => h.toLowerCase().includes(name))`). -/
def findHeaderContaining (headers : List String) (name : String) : Option Nat :=
  headers.findIdx? (fun h => containsSub (lowerStr h) name)

/-- Source constant `WEEKDAY_NAMES`. -/
def WEEKDAY_NAMES : List String :=
  ["Monday", "Tuesday", "Wednesday", "Thursday", "Friday", "Saturday", "Sunday"]

/-- Source record `DAY_INDEX`: weekday names and abbreviations to ordinals. -/
def dayIndexMap (s : String) : Option Nat :=
  if s == "monday" || s == "mon" then some 0
  else if s == "tuesday" || s == "tue" || s == "tues" then some 1
  else if s == "wednesday" || s == "wed" then some 2
  else if s == "thursday" || s == "thu" || s == "thurs" then some 3
  else if s == "friday" || s == "fri" then some 4
  else if s == "saturday" || s == "sat" then some 5
  else if s == "sunday" || s == "sun" then some 6
  else none

/-- Source `normalizeDayName`: trim, lowercase, look up, return canonical name. -/
def normalizeDayName (value : String) : Option String :=
  match dayIndexMap (lowerStr (strTrim value)) with
  | none => none
  | some i => some (WEEKDAY_NAMES.getD i "")

/-- Source `isRestLikeWorkout`: workout text contains "rest" or "off". -/
def isRestLikeWorkout (workoutType : String) : Bool :=
  containsSub (lowerStr workoutType) "rest" || containsSub (lowerStr workoutType) "off"

/-- Source `parseCells`: strip the outer pipes, split on pipe, trim cells. -/
def parseCells (line : String) : List String :=
  (splitOnChar '|' ((line.data.drop 1).dropLast)).map (fun cs => String.mk (trimChars cs))

/-- Row repair inside `parseMarkdownTables`: overflow cells joined into the
last column with " | ", shortfall right-padded with empty strings. -/
def repairRow (headers : List String) (row : List String) : List String :=
  if row.length == headers.length then row
  else if headers.length < row.length then
    row.take (headers.length - 1) ++ [joinWith " | " (row.drop (headers.length - 1))]
  else row ++ List.replicate (headers.length - row.length) ""

/-- A line that starts and ends with a pipe character. -/
def isPipeLine (s : String) : Bool :=
  s.data.head? == some '|' && s.data.getLast? == some '|'

/-- One candidate block of `parseMarkdownTables`: needs at least 3 lines with
a "---" marker on the second, header from the first line, data rows from the
third line on, repaired and then filtered to header width. -/
def blockToTable : List String → Option PlanTable
  | b0 :: b1 :: b2 :: rest =>
    if containsSub b1 "---" then
      let headers := parseCells b0
      let rows := ((b2 :: rest).map (fun l => repairRow headers (parseCells l))).filter
        (fun r => r.length == headers.length)
      if rows.isEmpty then none else some ⟨headers, rows⟩
    else none
  | _ => none

/-- Tables contributed by one finished pipe-line run. -/
def flushRun (run : List String) : List PlanTable :=
  match blockToTable run with
  | some t => [t]
  | none => []

/-- The line scanner of `parseMarkdownTables`: maximal pipe-line runs become
candidate blocks, other lines are skipped; `run` accumulates the current
pipe-line run. -/
def scanTables (run : List String) : List String → List PlanTable
  | [] => flushRun run
  | l :: ls =>
    if isPipeLine l then scanTables (run ++ [l]) ls
    else flushRun run ++ scanTables [] ls

/-- Source `parseMarkdownTables`: split into trimmed lines, scan for blocks. -/
def parseMarkdownTables (text : String) : List PlanTable :=
  scanTables [] ((splitOnChar '\n' text.data).map (fun cs => String.mk (trimChars cs)))

/-- Source type `StructuredPlanDay`. -/
structure StructuredPlanDay where
  day : String
  workoutType : String
  details : String
  rationale : String
deriving DecidableEq

/-- Source type `StructuredPlanWeek`. -/
structure StructuredPlanWeek where
  week : Int
  verdict : String
  reasoning : String
  days : List StructuredPlanDay
deriving DecidableEq

/-- One entry of the parsed JSON `days` array; every field optional. -/
structure DayEntryJson where
  day : Option String
  workoutType : Option String
  details : Option String
  rationale : Option String
deriving DecidableEq

/-- Result of `JSON.parse` on the candidate substring: the fields the source
reads, each optional (`week` is `none` when absent or not a finite number). -/
structure WeekJson where
  week : Option Int
  verdict : Option String
  reasoning : Option String
  days : Option (List DayEntryJson)
deriving DecidableEq

/-- The source's `(value ?? ifMissing).trim() || ifBlank` defaulting idiom. -/
def coalesceTrim (value : Option String) (ifMissing ifBlank : String) : String :=
  let t := strTrim (value.getD ifMissing)
  if t == "" then ifBlank else t

/-- Day record built from one JSON entry whose day normalized to
`normalizedDay`. -/
def mkEntryDay (normalizedDay : String) (entry : DayEntryJson) : StructuredPlanDay :=
  ⟨normalizedDay,
   coalesceTrim entry.workoutType "Rest Day" "Rest Day",
   coalesceTrim entry.details "" "Recovery / mobility",
   coalesceTrim entry.rationale "" "Load management"⟩

/-- The synthesized record for a weekday absent from the model output. -/
def defaultRestDay (day : String) : StructuredPlanDay :=
  ⟨day, "Rest Day", "Recovery / mobility", "Load management"⟩

/-- Lookup in the association-list model of the source's `Map`. -/
def mapGetKey (m : List (String × StructuredPlanDay)) (k : String) :
    Option StructuredPlanDay :=
  (m.find? (fun p => p.1 == k)).map Prod.snd

/-- One `forEach` step building `byDay`: skip unrecognized or duplicate
weekdays, otherwise insert (first occurrence wins). -/
def insertDayEntry (m : List (String × StructuredPlanDay)) (entry : DayEntryJson) :
    List (String × StructuredPlanDay) :=
  match normalizeDayName (entry.day.getD "") with
  | none => m
  | some nd => if (mapGetKey m nd).isSome then m else m ++ [(nd, mkEntryDay nd entry)]

/-- The `byDay` map of `parseWeekJsonFromText`. -/
def buildByDay (entries : List DayEntryJson) : List (String × StructuredPlanDay) :=
  entries.foldl insertDayEntry []

/-- The post-`JSON.parse` stage of `parseWeekJsonFromText`: fail unless `days`
is a list, then produce exactly one entry per canonical weekday. -/
def buildStructuredWeek (parsed : WeekJson) (expectedWeek : Int) :
    Option StructuredPlanWeek :=
  match parsed.days with
  | none => none
  | some entries =>
    let byDay := buildByDay entries
    let days := WEEKDAY_NAMES.map (fun day =>
      match mapGetKey byDay day with
      | some existing => existing
      | none => defaultRestDay day)
    some ⟨parsed.week.getD expectedWeek,
          coalesceTrim parsed.verdict "Maintenance" "Maintenance",
          coalesceTrim parsed.reasoning "Balanced load and recovery." "Balanced load and recovery.",
          days⟩

/-- The opening-brace character, written by code point. -/
def openBrace : Char := Char.ofNat 123

/-- The closing-brace character, written by code point. -/
def closeBrace : Char := Char.ofNat 125

/-- `replace(/^pat/i, '')` for a literal lowercase pattern. -/
def dropPrefixCI (pat : String) (cs : List Char) : List Char :=
  if (cs.take pat.length).map Char.toLower == pat.data then cs.drop pat.length else cs

/-- `replace(/pat$/i, '')` for a caseless literal pattern. -/
def dropSuffixLit (pat : String) (cs : List Char) : List Char :=
  if pat.length ≤ cs.length && (cs.drop (cs.length - pat.length)) == pat.data then
    cs.take (cs.length - pat.length)
  else cs

/-- Fence stripping and brace slicing of `parseWeekJsonFromText`: the substring
from the first opening brace to the last closing brace, or `none`. -/
def extractJsonCandidate (text : String) : Option String :=
  let trimmed := trimChars text.data
  if trimmed.isEmpty then none
  else
    let withoutFence :=
      trimChars (dropSuffixLit "```" (dropPrefixCI "```" (dropPrefixCI "```json" trimmed)))
    match withoutFence.findIdx? (fun c => c == openBrace) with
    | none => none
    | some firstBrace =>
      match withoutFence.reverse.findIdx? (fun c => c == closeBrace) with
      | none => none
      | some revIdx =>
        let lastBrace := withoutFence.length - 1 - revIdx
        if lastBrace ≤ firstBrace then none
        else some (String.mk ((withoutFence.drop firstBrace).take (lastBrace + 1 - firstBrace)))

/-- Source `parseWeekJsonFromText`; `JSON.parse` is the platform collaborator
`jsonParseOracle` (returning `none` models a parse exception). -/
def parseWeekJsonFromText (jsonParseOracle : String → Option WeekJson)
    (text : String) (expectedWeek : Int) : Option StructuredPlanWeek :=
  match extractJsonCandidate text with
  | none => none
  | some candidate =>
    match jsonParseOracle candidate with
    | none => none
    | some parsed => buildStructuredWeek parsed expectedWeek

/-- Source `structuredWeekToTable`: the canonical 5-column projection. -/
def structuredWeekToTable (weekPlan : StructuredPlanWeek) : PlanTable :=
  ⟨["Week", "Day", "Workout Type", "Details (Distance/Pace/Zone)", "Rationale"],
   weekPlan.days.map (fun day =>
     ["Week " ++ toString weekPlan.week, day.day, day.workoutType, day.details, day.rationale])⟩

/-- Source `enforceExpectedWeek`: prepend or overwrite the week column. -/
def enforceExpectedWeek (tables : List PlanTable) (weekNumber : Nat) : List PlanTable :=
  tables.map (fun table =>
    match findHeaderEq table.headers "week" with
    | none =>
      ⟨"Week" :: table.headers,
       table.rows.map (fun row => ("Week " ++ toString weekNumber) :: row)⟩
    | some weekIndex =>
      ⟨table.headers,
       table.rows.map (fun row => setCell row weekIndex ("Week " ++ toString weekNumber))⟩)

/-- Source `parseRunDayCap`: parse, default 4, clamp to 1..7. -/
def parseRunDayCap (value : String) : Int :=
  match jsParseInt (strTrim value) with
  | none => 4
  | some parsed => min (max parsed 1) 7

/-- A scored non-rest row of the run-day enforcer. -/
structure ScoredRow where
  idx : Nat
  score : Int
deriving DecidableEq

/-- Descending-score order used by the enforcer's sort. -/
def scoreRel (a b : ScoredRow) : Prop := b.score ≤ a.score

instance : DecidableRel scoreRel := fun a b => inferInstanceAs (Decidable (b.score ≤ a.score))

instance : IsTotal ScoredRow scoreRel := ⟨fun a b => le_total b.score a.score⟩

instance : IsTrans ScoredRow scoreRel := ⟨fun _ _ _ h1 h2 => le_trans h2 h1⟩

/-- The quality-session pattern `/(interval|tempo|threshold|hill|speed)/i`. -/
def qualityTest (workout : String) : Bool :=
  containsSub (lowerStr workout) "interval" || containsSub (lowerStr workout) "tempo" ||
  containsSub (lowerStr workout) "threshold" || containsSub (lowerStr workout) "hill" ||
  containsSub (lowerStr workout) "speed"

/-- Scoring rule of `clampWeekToRunDayCap`; the source's floating-point weights
100, 50, 25, 0.1, 0.01 are scaled by 100 to the integers 10000, 5000, 2500,
10, 1. -/
def scoreRow (longRunDayIndex dayIdx workoutIdx : Nat) (p : Nat × List String) : ScoredRow :=
  let workout := p.2.getD workoutIdx ""
  let day := lowerStr (p.2.getD dayIdx "")
  let dayOrder := (dayIndexMap day).getD 7
  let isLong := containsSub (lowerStr workout) "long"
  let isLongOnPreferredDay := isLong && dayOrder == longRunDayIndex
  let isQuality := qualityTest workout
  ⟨p.1,
   (if isLongOnPreferredDay then 10000 else 0) + (if isQuality then 5000 else 0) +
     (if isLong then 2500 else 0) - 10 * (dayOrder : Int) - (p.1 : Int)⟩

/-- In-place demotion of a non-kept non-rest row. -/
def demoteRow (workoutIdx : Nat) (detailsIdx rationaleIdx : Option Nat) (cap : Nat)
    (row : List String) : List String :=
  let r1 := setCell row workoutIdx "Rest Day"
  let r2 :=
    match detailsIdx with
    | some di => setCell r1 di "Recovery / optional mobility"
    | none => r1
  match rationaleIdx with
  | some ri => setCell r2 ri ("Respect " ++ toString cap ++ " training days/week")
  | none => r2

/-- Source `clampWeekToRunDayCap` restricted to one table. -/
def clampTable (runDayCap : Nat) (longRunDay : String) (table : PlanTable) : PlanTable :=
  match findHeaderEq table.headers "day", findHeaderContaining table.headers "workout" with
  | some dayIdx, some workoutIdx =>
    let detailsIdx := findHeaderContaining table.headers "details"
    let rationaleIdx := findHeaderContaining table.headers "rationale"
    let activeRows := table.rows.enum.filter
      (fun p => !(isRestLikeWorkout (p.2.getD workoutIdx "")))
    if activeRows.length ≤ runDayCap then table
    else
      let longRunDayIndex := (dayIndexMap (lowerStr longRunDay)).getD 6
      let scoredRows := activeRows.map (scoreRow longRunDayIndex dayIdx workoutIdx)
      let sortedRows := List.insertionSort scoreRel scoredRows
      let keepIndexes := (sortedRows.take runDayCap).map ScoredRow.idx
      let rows := table.rows.enum.map (fun p =>
        if keepIndexes.contains p.1 || isRestLikeWorkout (p.2.getD workoutIdx "") then p.2
        else demoteRow workoutIdx detailsIdx rationaleIdx runDayCap p.2)
      ⟨table.headers, rows⟩
  | _, _ => table

/-- Source `clampWeekToRunDayCap` over a table list. -/
def clampWeekToRunDayCap (tables : List PlanTable) (runDayCap : Nat)
    (longRunDay : String) : List PlanTable :=
  tables.map (clampTable runDayCap longRunDay)

/-- Source `countPlannedRunDays`: distinct non-rest weekday values. -/
def countPlannedRunDays (tables : List PlanTable) : Nat :=
  (tables.foldl (fun acc table =>
    match findHeaderEq table.headers "day", findHeaderContaining table.headers "workout" with
    | some dayIdx, some workoutIdx =>
      table.rows.foldl (fun acc2 row =>
        let day := lowerStr (strTrim (row.getD dayIdx ""))
        let workout := row.getD workoutIdx ""
        if day == "" || isRestLikeWorkout workout then acc2
        else if acc2.contains day then acc2 else acc2 ++ [day]) acc
    | _, _ => acc) ([] : List String)).length

/-- Source `withRunDayCorrection`: the corrective-retry prompt suffix. -/
def withRunDayCorrection (prompt : String) (weekNumber runDayCap : Nat) : String :=
  joinWith "\n"
    [prompt, "",
     "Critical Fix: Rewrite Week " ++ toString weekNumber ++ " so it has EXACTLY " ++
       toString runDayCap ++ " run days.",
     "Critical Fix: The other " ++ toString (7 - runDayCap) ++
       " days must be Rest or non-running cross-training.",
     "Critical Fix: Return ONLY corrected JSON for that week using the same schema."]

/-- The bullet text of one summarized row. -/
def bulletForRow (dayIdx workoutIdx detailsIdx : Option Nat) (row : List String) : String :=
  let day := match dayIdx with | none => "Day" | some di => row.getD di "Day"
  let workout := match workoutIdx with | none => "Run" | some wi => row.getD wi "Run"
  let details := match detailsIdx with | none => "" | some di => row.getD di ""
  "- " ++ day ++ ": " ++ workout ++ (if details == "" then "" else " (" ++ details ++ ")")

/-- Negation of the source's skip condition: a row contributes when there is
no week column, or its week cell is empty, or the cell contains "week n". -/
def rowContributes (weekIdx : Option Nat) (weekNumber : Nat) (row : List String) : Bool :=
  match weekIdx with
  | none => true
  | some wi =>
    (row.getD wi "" == "") ||
      containsSub (lowerStr (row.getD wi "")) ("week " ++ toString weekNumber)

/-- The bullet lines one table contributes to the history digest. -/
def tableSummaryLines (weekNumber : Nat) (table : PlanTable) : List String :=
  let weekIdx := findHeaderEq table.headers "week"
  let dayIdx := findHeaderEq table.headers "day"
  let workoutIdx := findHeaderContaining table.headers "workout"
  let detailsIdx := findHeaderContaining table.headers "details"
  (table.rows.filter (rowContributes weekIdx weekNumber)).map
    (bulletForRow dayIdx workoutIdx detailsIdx)

/-- Source `summarizeWeekForHistory`: header line plus at most 7 bullets. -/
def summarizeWeekForHistory (tables : List PlanTable) (weekNumber : Nat) : String :=
  let summaryLines := tables.foldl (fun acc table => acc ++ tableSummaryLines weekNumber table) []
  joinWith "\n" (("Week " ++ toString weekNumber ++ " Summary:") :: summaryLines.take 7)

/-- Source type `DisplayPlanTable`: a titled table for display and calendar
derivation. -/
structure DisplayPlanTable where
  title : String
  headers : List String
  rows : List (List String)
deriving DecidableEq

/-- A derived calendar event; timestamps are a civil day number (days since
1970-01-01 in local time, with local time modelled as the civil calendar)
and a minute of that day. -/
structure CalendarWorkoutEvent where
  title : String
  startDay : Int
  startMinute : Nat
  endDay : Int
  endMinute : Nat
  notes : String
deriving DecidableEq

/-- Source `estimatedDurationMinutes`: first-match duration rule. -/
def estimatedDurationMinutes (workoutType : String) : Nat :=
  let normalized := lowerStr workoutType
  if containsSub normalized "long" then 90
  else if containsSub normalized "interval" || containsSub normalized "tempo" ||
      containsSub normalized "speed" then 70
  else if containsSub normalized "recovery" || containsSub normalized "easy" then 50
  else if containsSub normalized "strength" then 45
  else 60

/-- Attempted match of the pattern `week\s+(\d+)` (case-insensitive) at the
head of a character list: "week", then at least one whitespace character, then
a maximal nonempty digit run. -/
def weekNumAt (cs : List Char) : Option Nat :=
  if (cs.take 4).map Char.toLower == "week".data then
    let rest := cs.drop 4
    if (rest.takeWhile Char.isWhitespace).isEmpty then none
    else
      let ds := (rest.dropWhile Char.isWhitespace).takeWhile Char.isDigit
      if ds.isEmpty then none else some (digitsToNat ds)
  else none

/-- Leftmost match of `week\s+(\d+)` in a character list. -/
def findWeekNum : List Char → Option Nat
  | [] => none
  | c :: cs =>
    match weekNumAt (c :: cs) with
    | some n => some n
    | none => findWeekNum cs

/-- Source `extractWeekNumber`: regex week number from a title, or fallback. -/
def extractWeekNumber (title : String) (fallback : Nat) : Nat :=
  match findWeekNum title.data with
  | some n => n
  | none => fallback

/-- Civil date to day number since 1970-01-01 (proleptic Gregorian), the
standard days-from-civil algorithm with floor division. -/
def daysFromCivil (y m d : Int) : Int :=
  let y2 := if m ≤ 2 then y - 1 else y
  let era := Int.fdiv y2 400
  let yoe := y2 - era * 400
  let mp := Int.emod (m + 9) 12
  let doy := Int.fdiv (153 * mp + 2) 5 + d - 1
  let doe := yoe * 365 + Int.fdiv yoe 4 - Int.fdiv yoe 100 + doy
  era * 146097 + doe - 719468

/-- Day number of a `yyyy-mm-dd` ISO date string, modelling
`new Date(iso)` for the date-only strings the pipeline passes (invalid
strings, out of modelled scope, map to day 0). -/
def parseIsoDateToDay (s : String) : Int :=
  match (splitOnChar '-' (trimChars s.data)).map (fun cs => cs.takeWhile Char.isDigit) with
  | [ys, ms, ds] =>
    if ys.isEmpty || ms.isEmpty || ds.isEmpty then 0
    else daysFromCivil (digitsToNat ys) (digitsToNat ms) (digitsToNat ds)
  | _ => 0

/-- Source `toCalendarEvents`. `nextMondayDay` stands for the source's
`nextMonday()` computed from the current date (an external input); events are
placed at anchor + week offset + day offset, 07:00, with the estimated
duration added minute-wise. -/
def toCalendarEvents (nextMondayDay : Int) (tables : List DisplayPlanTable)
    (planStartDateIso : Option String) : List CalendarWorkoutEvent :=
  let planStartMonday :=
    match planStartDateIso with
    | some iso => parseIsoDateToDay iso
    | none => nextMondayDay
  (tables.enum.map (fun tp =>
    let table := tp.2
    let weekNumber := extractWeekNumber table.title (tp.1 + 1)
    let weekOffset := ((weekNumber : Int) - 1) * 7
    match findHeaderEq table.headers "day", findHeaderContaining table.headers "workout" with
    | some dayIdx, some workoutTypeIdx =>
      let detailsIdx := findHeaderContaining table.headers "details"
      let rationaleIdx := findHeaderContaining table.headers "rationale"
      table.rows.filterMap (fun row =>
        match dayIndexMap (lowerStr (strTrim (row.getD dayIdx ""))) with
        | none => none
        | some dayOffset =>
          let workoutType := row.getD workoutTypeIdx "Run"
          if isRestLikeWorkout workoutType then none
          else
            let details := match detailsIdx with | none => "" | some di => row.getD di ""
            let rationale := match rationaleIdx with | none => "" | some ri => row.getD ri ""
            let startDay := planStartMonday + weekOffset + (dayOffset : Int)
            let endTotalMinute := 7 * 60 + estimatedDurationMinutes workoutType
            some ⟨"Frunna W" ++ toString weekNumber ++ ": " ++ workoutType,
                  startDay, 7 * 60,
                  startDay + ((endTotalMinute / 1440 : Nat) : Int), endTotalMinute % 1440,
                  joinWith "\n" ([details, rationale].filter (fun s => !(s == "")))⟩)
    | _, _ => [])).flatten

/-- Source `looksLikeContextWindowError`: the transient-capacity heuristic. -/
def looksLikeContextWindowError (message : String) : Bool :=
  let normalized := lowerStr message
  containsSub normalized "context window" || containsSub normalized "model size" ||
    containsSub normalized "token"

/-- Parse one week's response text: structured JSON first, else markdown
tables stamped with the expected week. -/
def attemptParse (jsonParseOracle : String → Option WeekJson) (text : String)
    (week : Nat) : List PlanTable :=
  match parseWeekJsonFromText jsonParseOracle text (week : Int) with
  | some structuredWeek => [structuredWeekToTable structuredWeek]
  | none => enforceExpectedWeek (parseMarkdownTables text) week

/-- The orchestrator's collaborators and per-run settings: the generative
model (`genModel`, failing with an error message), the platform JSON parser,
and the full/compact prompt builders (history context and week number to
prompt text), plus the parsed run-day cap and configured long-run day. -/
structure OrchConfig where
  genModel : String → Except String String
  jsonParseOracle : String → Option WeekJson
  buildFullPrompt : String → Nat → String
  buildCompactPrompt : String → Nat → String
  runDayCap : Nat
  longRunDay : String

/-- One request-parse-correct pass of `buildWeeklyPlan` against a given
prompt: generate, parse, and when the planned run days exceed the cap issue
the single corrective re-request. Returns the final response text and
tables, or the generation error. -/
def tryGeneratePath (cfg : OrchConfig) (prompt : String) (week : Nat) :
    Except String (String × List PlanTable) :=
  match cfg.genModel prompt with
  | Except.error e => Except.error e
  | Except.ok text =>
    let tables := attemptParse cfg.jsonParseOracle text week
    if cfg.runDayCap < countPlannedRunDays tables then
      match cfg.genModel (withRunDayCorrection prompt week cfg.runDayCap) with
      | Except.error e => Except.error e
      | Except.ok text2 => Except.ok (text2, attemptParse cfg.jsonParseOracle text2 week)
    else Except.ok (text, tables)

/-- One week's iteration of `buildWeeklyPlan`: the full path; on a
context-window-like failure the compact path; any other failure propagates.
The run-day enforcer is applied unconditionally to the produced tables. -/
def weekStep (cfg : OrchConfig) (history : String) (week : Nat) :
    Except String (String × List PlanTable) :=
  match tryGeneratePath cfg (cfg.buildFullPrompt history week) week with
  | Except.ok (text, tables) =>
    Except.ok (text, clampWeekToRunDayCap tables cfg.runDayCap cfg.longRunDay)
  | Except.error e =>
    if looksLikeContextWindowError e then
      match tryGeneratePath cfg (cfg.buildCompactPrompt history week) week with
      | Except.ok (text, tables) =>
        Except.ok (text, clampWeekToRunDayCap tables cfg.runDayCap cfg.longRunDay)
      | Except.error e2 => Except.error e2
    else Except.error e

/-- Orchestrator accumulation state; `publishedTables` records the snapshots
published to the caller after each completed week (the source's
`setPlanTables` calls). -/
structure OrchState where
  partResponses : List String
  accumulatedTables : List PlanTable
  historySummaries : List String
  publishedTables : List (List PlanTable)
deriving DecidableEq

/-- Initial orchestrator state. -/
def initOrchState : OrchState := ⟨[], [], [], []⟩

/-- The sequential week loop of `buildWeeklyPlan`: each completed week
appends its response, tables, and history digest and publishes a snapshot;
an uncaught error stops the loop, leaving the state as already published. -/
def runWeeks (cfg : OrchConfig) : List Nat → OrchState → Except String Unit × OrchState
  | [], st => (Except.ok (), st)
  | week :: rest, st =>
    match weekStep cfg (joinWith "\n\n" st.historySummaries) week with
    | Except.error e => (Except.error e, st)
    | Except.ok (text, tables) =>
      let newTables := st.accumulatedTables ++ tables
      runWeeks cfg rest
        ⟨st.partResponses ++ [text], newTables,
         st.historySummaries ++ [summarizeWeekForHistory tables week],
         st.publishedTables ++ [newTables]⟩

/-- Source `buildWeeklyPlan`: weeks 1..planLengthWeeks sequentially; a plan
longer than the 12 supported prompt parts throws before any week runs. -/
def buildWeeklyPlan (cfg : OrchConfig) (planLengthWeeks : Nat) :
    Except String Unit × OrchState :=
  if planLengthWeeks ≤ 12 then
    runWeeks cfg ((List.range planLengthWeeks).map (· + 1)) initOrchState
  else (Except.error "Unsupported week prompt key: week13", initOrchState)

/-- A generation request failing with error `e` at a point week `week`'s
iteration actually reaches: either the full path fails with `e`, or the full
path fails with a context-window-like error and the compact path then fails
with `e`. -/
def reachesGenFailure (cfg : OrchConfig) (history : String) (week : Nat) (e : String) : Prop :=
  tryGeneratePath cfg (cfg.buildFullPrompt history week) week = Except.error e ∨
  (∃ e1, tryGeneratePath cfg (cfg.buildFullPrompt history week) week = Except.error e1 ∧
    looksLikeContextWindowError e1 = true ∧
    tryGeneratePath cfg (cfg.buildCompactPrompt history week) week = Except.error e)

/-- Rest-likeness of a row as seen through a workout column index. -/
def rowIsRest (workoutIdx : Nat) (row : List String) : Bool :=
  isRestLikeWorkout (row.getD workoutIdx "")

/-- Number of non-rest-like rows of a table, judged at a workout column. -/
def tableNonRestCount (workoutIdx : Nat) (t : PlanTable) : Nat :=
  (t.rows.filter (fun row => !(rowIsRest workoutIdx row))).length

/-- First JSON entry whose day normalizes to the given canonical weekday. -/
def firstEntryFor (entries : List DayEntryJson) (day : String) : Option DayEntryJson :=
  entries.find? (fun entry => normalizeDayName (entry.day.getD "") == some day)

/-- Declarative day record for one canonical weekday: the first matching
entry's record, else the default Rest Day record. -/
def specDayFor (entries : List DayEntryJson) (day : String) : StructuredPlanDay :=
  match firstEntryFor entries day with
  | some entry => mkEntryDay day entry
  | none => defaultRestDay day

/-- Scenario table: a week with 8 non-rest rows, a Sunday long run, a Tuesday
tempo run, and six easy runs. -/
def c4Table : PlanTable :=
  ⟨["Week", "Day", "Workout Type", "Details (Distance/Pace/Zone)", "Rationale"],
   [["Week 2", "Monday", "Easy Run", "5km", "base"],
    ["Week 2", "Tuesday", "Tempo Run", "6km", "quality"],
    ["Week 2", "Wednesday", "Easy Run", "5km", "base"],
    ["Week 2", "Thursday", "Easy Run", "5km", "base"],
    ["Week 2", "Friday", "Easy Run", "5km", "base"],
    ["Week 2", "Saturday", "Easy Run", "5km", "base"],
    ["Week 2", "Sunday", "Long Run", "16km", "endurance"],
    ["Week 2", "Wednesday", "Easy Run", "4km", "base"]]⟩

/-- A week table with 8 non-rest rows including a Sunday long run and a
Tuesday tempo run, where four earlier interval rows outscore the tempo run. -/
def c4CexTable : PlanTable :=
  ⟨["Week", "Day", "Workout Type", "Details (Distance/Pace/Zone)", "Rationale"],
   [["Week 1", "Monday", "Intervals", "", ""],
    ["Week 1", "Monday", "Intervals", "", ""],
    ["Week 1", "Monday", "Intervals", "", ""],
    ["Week 1", "Monday", "Intervals", "", ""],
    ["Week 1", "Tuesday", "Tempo Run", "", ""],
    ["Week 1", "Sunday", "Long Run", "", ""],
    ["Week 1", "Wednesday", "Easy Run", "", ""],
    ["Week 1", "Thursday", "Easy Run", "", ""]]⟩

/-- A table whose "details" header search resolves to the workout column
itself, so demotion overwrites "Rest Day" with non-rest-like details text. -/
def c1CexTable : PlanTable :=
  ⟨["Day", "Workout Details"], [["Mon", "Run"], ["Tue", "Run"]]⟩

/-! ## Helper lemmas -/

theorem getD_of_getElem? (l : List String) (i : Nat) (v d : String) (h : l[i]? = some v) :
    l.getD i d = v := by
  simp [List.getD, h]

theorem setCell_length_else (row : List String) (i : Nat) (v : String) (h : ¬i < row.length) :
    (setCell row i v).length = i + 1 := by
  simp only [setCell, if_neg h]
  simp [List.length_append, List.length_replicate]
  omega

theorem setCell_getElem?_self (row : List String) (i : Nat) (v : String) :
    (setCell row i v)[i]? = some v := by
  by_cases h : i < row.length
  · simp only [setCell, if_pos h]
    simp [List.getElem?_set, h]
  · simp only [setCell, if_neg h]
    have hlen : (row ++ List.replicate (i - row.length) "").length = i := by
      simp [List.length_append, List.length_replicate]
      omega
    rw [List.getElem?_append_right (by omega)]
    simp [hlen]

theorem setCell_getD_ne (row : List String) (i j : Nat) (v : String) (hne : i ≠ j) :
    (setCell row i v).getD j "" = row.getD j "" := by
  have hg : ∀ (l : List String), l.getD j "" = (l[j]?).getD "" := fun l => by simp [List.getD]
  rw [hg, hg]
  by_cases h : i < row.length
  · simp only [setCell, if_pos h]
    simp [List.getElem?_set, hne]
  · simp only [setCell, if_neg h]
    by_cases hj : j < row.length
    · rw [List.getElem?_append,
        if_pos (by simp [List.length_append, List.length_replicate]; omega)]
      rw [List.getElem?_append, if_pos hj]
    · have hjout : row[j]? = none := List.getElem?_eq_none (Nat.le_of_not_lt hj)
      rw [hjout]
      rcases Nat.lt_trichotomy j i with hji | hji | hji
      · rw [List.getElem?_append,
          if_pos (by simp [List.length_append, List.length_replicate]; omega)]
        rw [List.getElem?_append, if_neg hj]
        rw [List.getElem?_replicate]
        split_ifs <;> rfl
      · exact absurd hji.symm hne
      · rw [List.getElem?_eq_none (by simp [List.length_append, List.length_replicate]; omega)]

theorem set_getElem?_eq_self (l : List String) (i : Nat) (v : String) (h : l[i]? = some v) :
    l.set i v = l := by
  induction l generalizing i with
  | nil => simp at h
  | cons a as ih =>
    cases i with
    | zero =>
      simp only [List.getElem?_cons_zero, Option.some.injEq] at h
      simp [List.set, h]
    | succ n =>
      simp only [List.getElem?_cons_succ] at h
      simp [List.set, ih n h]

theorem setCell_idem (row : List String) (i : Nat) (v : String) :
    setCell (setCell row i v) i v = setCell row i v := by
  have hv : (setCell row i v)[i]? = some v := setCell_getElem?_self row i v
  have hlt : i < (setCell row i v).length := by
    by_contra hc
    rw [List.getElem?_eq_none (Nat.le_of_not_lt hc)] at hv
    cases hv
  conv_lhs => rw [setCell]
  rw [if_pos hlt]
  exact set_getElem?_eq_self _ i v hv

theorem foldl_append_eq_flatten (f : PlanTable → List String) (tables : List PlanTable)
    (acc : List String) :
    tables.foldl (fun a t => a ++ f t) acc = acc ++ (tables.map f).flatten := by
  induction tables generalizing acc with
  | nil => simp
  | cons t ts ih => simp [ih, List.append_assoc]

/-! ## Claim theorems -/

/-- C6: `enforceExpectedWeek` is idempotent — applying it twice with the same
week number yields the same tables as applying it once. -/
theorem enforceExpectedWeek_idem (tables : List PlanTable) (n : Nat) :
    enforceExpectedWeek (enforceExpectedWeek tables n) n = enforceExpectedWeek tables n := by
  unfold enforceExpectedWeek
  rw [List.map_map]
  apply List.map_congr_left
  intro t _
  simp only [Function.comp]
  cases hfind : findHeaderEq t.headers "week" with
  | none =>
    have hWeek : (fun h => lowerStr h == "week") "Week" = true := by decide
    have h0 : findHeaderEq ("Week" :: t.headers) "week" = some 0 := by
      simp [findHeaderEq, List.findIdx?_cons, hWeek]
    simp only [h0, List.map_map]
    refine congrArg _ ?_
    apply List.map_congr_left
    intro row _
    simp only [Function.comp]
    have : 0 < (("Week " ++ toString n) :: row).length := by simp
    simp [setCell, this, List.set]
  | some wi =>
    simp only [hfind, List.map_map]
    refine congrArg _ ?_
    apply List.map_congr_left
    intro row _
    exact setCell_idem row wi _

/-- C9: a table lacking a "day" header or a header containing "workout" is
returned unchanged by the run-day enforcer, for every cap and long-run day. -/
theorem clampTable_skips_incomplete (t : PlanTable) (cap : Nat) (lrd : String)
    (h : findHeaderEq t.headers "day" = none ∨
      findHeaderContaining t.headers "workout" = none) :
    clampTable cap lrd t = t ∧ clampWeekToRunDayCap [t] cap lrd = [t] := by
  have h1 : clampTable cap lrd t = t := by
    rcases h with h | h
    · cases h2 : findHeaderContaining t.headers "workout" <;> simp [clampTable, h, h2]
    · cases h2 : findHeaderEq t.headers "day" <;> simp [clampTable, h, h2]
  exact ⟨h1, by simp [clampWeekToRunDayCap, h1]⟩

/-- Witness for C9 at a concrete one-column table. -/
theorem clampTable_skips_incomplete_witness :
    clampTable 1 "Sunday" ⟨["Day"], [["Mon"], ["Tue"]]⟩ = ⟨["Day"], [["Mon"], ["Tue"]]⟩ ∧
    clampWeekToRunDayCap [⟨["Day"], [["Mon"], ["Tue"]]⟩] 1 "Sunday" =
      [⟨["Day"], [["Mon"], ["Tue"]]⟩] :=
  clampTable_skips_incomplete ⟨["Day"], [["Mon"], ["Tue"]]⟩ 1 "Sunday" (Or.inr (by decide))

/-- C10: `parseRunDayCap` always returns an integer in 1..7, and returns 4
whenever the trimmed input does not parse to an integer. -/
theorem parseRunDayCap_in_range (s : String) :
    1 ≤ parseRunDayCap s ∧ parseRunDayCap s ≤ 7 ∧
      (jsParseInt (strTrim s) = none → parseRunDayCap s = 4) := by
  unfold parseRunDayCap
  cases h : jsParseInt (strTrim s) with
  | none => exact ⟨by norm_num, by norm_num, fun _ => rfl⟩
  | some p =>
    refine ⟨le_min (le_trans (le_max_right p 1) (le_refl _)) (by norm_num), min_le_right _ 7, ?_⟩
    intro hc
    cases hc

/-- Witness for C10 at the empty string. -/
theorem parseRunDayCap_in_range_witness :
    parseRunDayCap "" = 4 ∧ 1 ≤ parseRunDayCap "" :=
  ⟨(parseRunDayCap_in_range "").2.2 (by decide), (parseRunDayCap_in_range "").1⟩

/-- C4 counterexample: a table with 8 non-rest rows, a Sunday long run
(row 5) and a Tuesday tempo run (row 4), cap 4, long-run day Sunday, where
four earlier interval rows outscore the tempo run, so the Tuesday tempo row
is demoted rather than kept — refuting the universally quantified claim. -/
theorem clampTable_tempo_dropped_cex :
    tableNonRestCount 2 c4CexTable = 8 ∧
    (c4CexTable.rows.getD 4 []).getD 1 "" = "Tuesday" ∧
    containsSub (lowerStr ((c4CexTable.rows.getD 4 []).getD 2 "")) "tempo" = true ∧
    (c4CexTable.rows.getD 5 []).getD 1 "" = "Sunday" ∧
    containsSub (lowerStr ((c4CexTable.rows.getD 5 []).getD 2 "")) "long" = true ∧
    tableNonRestCount 2 (clampTable 4 "Sunday" c4CexTable) = 4 ∧
    ((clampTable 4 "Sunday" c4CexTable).rows.getD 4 []).getD 2 "" = "Rest Day" := by
  decide

/-- C4 amended: in the scenario week table with 8 non-rest rows — a Sunday
long run, a Tuesday tempo run and six easy runs — cap 4 and long-run day
Sunday, exactly 4 non-rest rows remain and the Sunday long-run row and the
Tuesday tempo row are both kept unchanged. -/
theorem clampTable_scenario_keeps_key_rows :
    tableNonRestCount 2 c4Table = 8 ∧
    clampWeekToRunDayCap [c4Table] 4 "Sunday" = [clampTable 4 "Sunday" c4Table] ∧
    tableNonRestCount 2 (clampTable 4 "Sunday" c4Table) = 4 ∧
    (clampTable 4 "Sunday" c4Table).rows.getD 6 [] = c4Table.rows.getD 6 [] ∧
    (clampTable 4 "Sunday" c4Table).rows.getD 1 [] = c4Table.rows.getD 1 [] ∧
    rowIsRest 2 ((clampTable 4 "Sunday" c4Table).rows.getD 6 []) = false ∧
    rowIsRest 2 ((clampTable 4 "Sunday" c4Table).rows.getD 1 []) = false := by
  decide

/-- C8 counterexample: with a week column present and a row whose week cell
is the empty string, the row's bullet still appears in the digest although
the cell does not contain "week 1" — refuting the claimed "if and only if". -/
theorem summarizeWeekForHistory_empty_cell_cex :
    findHeaderEq ["Week", "Day", "Workout Type"] "week" = some 0 ∧
    containsSub (lowerStr "") "week 1" = false ∧
    summarizeWeekForHistory [⟨["Week", "Day", "Workout Type"], [["", "Monday", "Easy Run"]]⟩] 1 =
      "Week 1 Summary:\n- Monday: Easy Run" := by
  decide

/-- C1 counterexample: a table whose "details" header search resolves to the
workout column; with 2 non-rest rows and cap 1 the output still has 2
non-rest rows, because demotion overwrites "Rest Day" with the non-rest-like
details text — refuting the claimed exact cap. -/
theorem clampTable_overlap_cex :
    findHeaderEq c1CexTable.headers "day" = some 0 ∧
    findHeaderContaining c1CexTable.headers "workout" = some 1 ∧
    tableNonRestCount 1 c1CexTable = 2 ∧
    clampWeekToRunDayCap [c1CexTable] 1 "Sunday" = [clampTable 1 "Sunday" c1CexTable] ∧
    tableNonRestCount 1 (clampTable 1 "Sunday" c1CexTable) = 2 := by
  decide

/-- C8 amended: the digest is the header line `"Week {n} Summary:"` joined
with at most 7 bullet lines, taken from the rows of all tables in order; a
row contributes a bullet exactly when its table has no week column, or its
week cell is empty, or the cell case-insensitively contains `"week {n}"`. -/
theorem summarizeWeekForHistory_spec (tables : List PlanTable) (n : Nat) :
    summarizeWeekForHistory tables n =
      joinWith "\n" (("Week " ++ toString n ++ " Summary:") ::
        ((tables.map (tableSummaryLines n)).flatten.take 7)) ∧
    ((tables.map (tableSummaryLines n)).flatten.take 7).length ≤ 7 ∧
    ∀ t, tableSummaryLines n t =
      (t.rows.filter (fun row =>
        match findHeaderEq t.headers "week" with
        | none => true
        | some wi => (row.getD wi "" == "") ||
            containsSub (lowerStr (row.getD wi "")) ("week " ++ toString n))).map
        (bulletForRow (findHeaderEq t.headers "day") (findHeaderContaining t.headers "workout")
          (findHeaderContaining t.headers "details")) := by
  refine ⟨?_, List.length_take_le 7 _, fun t => rfl⟩
  unfold summarizeWeekForHistory
  rw [foldl_append_eq_flatten]
  simp

theorem splitOnChar_ne_nil (sep : Char) (cs : List Char) : splitOnChar sep cs ≠ [] := by
  cases cs with
  | nil => simp [splitOnChar]
  | cons c cs2 =>
    simp only [splitOnChar]
    by_cases h : (c == sep) = true
    · simp [h]
    · simp only [h]
      cases splitOnChar sep cs2 <;> simp

theorem splitOnChar_no_sep (sep : Char) (cs : List Char) (h : sep ∉ cs) :
    splitOnChar sep cs = [cs] := by
  induction cs with
  | nil => rfl
  | cons c cs2 ih =>
    have hc : (c == sep) = false := by
      simp only [List.mem_cons, not_or] at h
      simp [beq_eq_false_iff_ne]
      exact fun he => h.1 he.symm
    have hrest : splitOnChar sep cs2 = [cs2] := by
      apply ih
      intro hm
      exact h (List.mem_cons_of_mem c hm)
    simp [splitOnChar, hc, hrest]

theorem splitOnChar_append_sep (sep : Char) (pre rest : List Char) (h : sep ∉ pre) :
    splitOnChar sep (pre ++ sep :: rest) = pre :: splitOnChar sep rest := by
  induction pre with
  | nil =>
    simp [splitOnChar]
  | cons c pre2 ih =>
    have hc : (c == sep) = false := by
      simp only [List.mem_cons, not_or] at h
      simp [beq_eq_false_iff_ne]
      exact fun he => h.1 he.symm
    have hrest : splitOnChar sep (pre2 ++ sep :: rest) = pre2 :: splitOnChar sep rest := by
      apply ih
      intro hm
      exact h (List.mem_cons_of_mem c hm)
    simp only [List.cons_append, splitOnChar, hc]
    simp only [List.append_eq, hrest]
    simp

theorem splitOnChar_joinWith (lines : List String) (hne : lines ≠ [])
    (h : ∀ l ∈ lines, ('\n' : Char) ∉ l.data) :
    splitOnChar '\n' (joinWith "\n" lines).data = lines.map String.data := by
  induction lines with
  | nil => cases hne rfl
  | cons x rest ih =>
    cases rest with
    | nil =>
      simp only [joinWith, List.map]
      exact splitOnChar_no_sep '\n' x.data (h x (by simp))
    | cons y r =>
      have hdata : (joinWith "\n" (x :: y :: r)).data =
          (x.data ++ ['\n']) ++ (joinWith "\n" (y :: r)).data := rfl
      rw [hdata, List.append_assoc]
      rw [show ((['\n'] : List Char) ++ (joinWith "\n" (y :: r)).data) =
        '\n' :: (joinWith "\n" (y :: r)).data from rfl]
      rw [splitOnChar_append_sep '\n' _ _ (h x (by simp))]
      rw [ih (by simp) (fun l hl => h l (List.mem_cons_of_mem x hl))]
      rfl

theorem scanTables_all_pipe (acc ls : List String) (h : ∀ l ∈ ls, isPipeLine l = true) :
    scanTables acc ls = flushRun (acc ++ ls) := by
  induction ls generalizing acc with
  | nil => simp [scanTables]
  | cons l ls2 ih =>
    have hl : isPipeLine l = true := h l (by simp)
    simp only [scanTables, hl, if_pos]
    rw [ih (acc ++ [l]) (fun x hx => h x (List.mem_cons_of_mem l hx))]
    simp

theorem parseCells_ne_nil (line : String) : parseCells line ≠ [] := by
  unfold parseCells
  intro hc
  exact splitOnChar_ne_nil '|' ((line.data.drop 1).dropLast) (List.map_eq_nil_iff.mp hc)

theorem repairRow_length (headers row : List String) (hh : headers ≠ []) :
    (repairRow headers row).length = headers.length := by
  have hpos : 0 < headers.length := List.length_pos.mpr hh
  unfold repairRow
  by_cases h1 : (row.length == headers.length) = true
  · simp only [if_pos h1]
    simpa using h1
  · simp only [if_neg h1]
    have hne : row.length ≠ headers.length := by simpa using h1
    by_cases h2 : headers.length < row.length
    · simp only [if_pos h2, List.length_append, List.length_take]
      simp
      omega
    · simp only [if_neg h2, List.length_append, List.length_replicate]
      omega

theorem blockToTable_cons (b0 b1 b2 : String) (rest : List String) :
    blockToTable (b0 :: b1 :: b2 :: rest) =
      (if containsSub b1 "---" then
        (if (((b2 :: rest).map (fun l => repairRow (parseCells b0) (parseCells l))).filter
            (fun r => r.length == (parseCells b0).length)).isEmpty then none
         else some ⟨parseCells b0,
           ((b2 :: rest).map (fun l => repairRow (parseCells b0) (parseCells l))).filter
             (fun r => r.length == (parseCells b0).length)⟩)
      else none) := rfl

/-- C5: a qualifying markdown block — pipe-delimited trimmed lines, at least
three of them, with a "---" marker on the second — parses to the table whose
header is the first line's cells and whose data rows are the cells of the
lines from the third line on, each repaired to header width. -/
theorem parseMarkdownTables_block (b0 b1 b2 : String) (rest : List String)
    (hpipe : ∀ l ∈ b0 :: b1 :: b2 :: rest, isPipeLine l = true)
    (htrim : ∀ l ∈ b0 :: b1 :: b2 :: rest, trimChars l.data = l.data)
    (hnl : ∀ l ∈ b0 :: b1 :: b2 :: rest, ('\n' : Char) ∉ l.data)
    (hsep : containsSub b1 "---" = true) :
    parseMarkdownTables (joinWith "\n" (b0 :: b1 :: b2 :: rest)) =
      [⟨parseCells b0, (b2 :: rest).map (fun l => repairRow (parseCells b0) (parseCells l))⟩] := by
  unfold parseMarkdownTables
  rw [splitOnChar_joinWith _ (by simp) hnl]
  have hmap : ((b0 :: b1 :: b2 :: rest).map String.data).map (fun cs => String.mk (trimChars cs)) =
      b0 :: b1 :: b2 :: rest := by
    rw [List.map_map]
    have h2 : (b0 :: b1 :: b2 :: rest).map ((fun cs => String.mk (trimChars cs)) ∘ String.data) =
        (b0 :: b1 :: b2 :: rest).map id :=
      List.map_congr_left (fun l hl => by simp only [Function.comp, htrim l hl, id])
    rw [h2, List.map_id]
  rw [hmap]
  rw [scanTables_all_pipe [] _ hpipe]
  simp only [List.nil_append]
  unfold flushRun
  rw [blockToTable_cons, if_pos hsep]
  have hh : parseCells b0 ≠ [] := parseCells_ne_nil b0
  have hfilter : (((b2 :: rest).map (fun l => repairRow (parseCells b0) (parseCells l))).filter
      (fun r => r.length == (parseCells b0).length)) =
      ((b2 :: rest).map (fun l => repairRow (parseCells b0) (parseCells l))) := by
    apply List.filter_eq_self.mpr
    intro r hr
    obtain ⟨l, hl, hrl⟩ := List.mem_map.mp hr
    rw [← hrl]
    simp [repairRow_length _ _ hh]
  rw [hfilter]
  simp

/-- Witness for C5: the concrete three-line pipe table round-trips to its
literal cells. -/
theorem parseMarkdownTables_block_witness :
    parseMarkdownTables "|Day|\n|---|\n|Mon|" = [⟨["Day"], [["Mon"]]⟩] := by
  have hj : joinWith "\n" ["|Day|", "|---|", "|Mon|"] = "|Day|\n|---|\n|Mon|" := by decide
  have h := parseMarkdownTables_block "|Day|" "|---|" "|Mon|" []
    (by decide) (by decide) (by decide) (by decide)
  rw [hj] at h
  rw [h]
  decide

theorem mapGetKey_append_single (m : List (String × StructuredPlanDay)) (k : String)
    (v : StructuredPlanDay) (day : String) :
    mapGetKey (m ++ [(k, v)]) day =
      (match mapGetKey m day with
       | some x => some x
       | none => if k == day then some v else none) := by
  induction m with
  | nil =>
    simp only [List.nil_append, mapGetKey, List.find?]
    by_cases h : (k == day) = true
    · simp [h]
    · simp [h]
  | cons a m2 ih =>
    by_cases h : (a.1 == day) = true
    · simp [mapGetKey, List.find?, h]
    · simp only [mapGetKey, List.cons_append, List.find?, h] at ih ⊢
      exact ih

theorem insertDayEntry_none (m : List (String × StructuredPlanDay)) (entry : DayEntryJson)
    (h : normalizeDayName (entry.day.getD "") = none) : insertDayEntry m entry = m := by
  unfold insertDayEntry
  rw [h]

theorem insertDayEntry_some (m : List (String × StructuredPlanDay)) (entry : DayEntryJson)
    (nd : String) (h : normalizeDayName (entry.day.getD "") = some nd) :
    insertDayEntry m entry =
      if (mapGetKey m nd).isSome then m else m ++ [(nd, mkEntryDay nd entry)] := by
  unfold insertDayEntry
  rw [h]

theorem firstEntryFor_cons (e : DayEntryJson) (rest : List DayEntryJson) (day : String) :
    firstEntryFor (e :: rest) day =
      if normalizeDayName (e.day.getD "") = some day then some e
      else firstEntryFor rest day := by
  by_cases h : normalizeDayName (e.day.getD "") = some day
  · have hb : (normalizeDayName (e.day.getD "") == some day) = true := by simpa using h
    simp [firstEntryFor, List.find?, hb, h]
  · have hb : (normalizeDayName (e.day.getD "") == some day) = false := by simpa using h
    simp [firstEntryFor, List.find?, hb, h]

theorem buildByDay_lookup (entries : List DayEntryJson) (m : List (String × StructuredPlanDay))
    (day : String) :
    mapGetKey (entries.foldl insertDayEntry m) day =
      (match mapGetKey m day with
       | some x => some x
       | none => (firstEntryFor entries day).map (mkEntryDay day)) := by
  induction entries generalizing m with
  | nil =>
    simp only [List.foldl_nil, firstEntryFor, List.find?, Option.map_none']
    cases mapGetKey m day <;> rfl
  | cons e rest ih =>
    rw [List.foldl_cons, ih, firstEntryFor_cons]
    cases hnorm : normalizeDayName (e.day.getD "") with
    | none =>
      rw [insertDayEntry_none m e hnorm]
      rw [if_neg (by simp)]
    | some nd =>
      by_cases hd : nd = day
      · subst hd
        rw [insertDayEntry_some m e nd hnorm, if_pos rfl]
        by_cases hhas : (mapGetKey m nd).isSome
        · rw [if_pos hhas]
          obtain ⟨x, hx⟩ := Option.isSome_iff_exists.mp hhas
          rw [hx]
        · rw [if_neg hhas, mapGetKey_append_single]
          have hnone : mapGetKey m nd = none := Option.not_isSome_iff_eq_none.mp hhas
          rw [hnone]
          simp
      · have hns : ¬(some nd = some day) := by simpa using hd
        rw [insertDayEntry_some m e nd hnorm, if_neg hns]
        by_cases hhas : (mapGetKey m nd).isSome
        · rw [if_pos hhas]
        · rw [if_neg hhas, mapGetKey_append_single]
          have hkd : (nd == day) = false := by simpa using hd
          rw [hkd]
          cases hm : mapGetKey m day <;> simp

/-- C2: whenever the brace-delimited candidate of the response text parses to
a JSON object whose `days` field is a list, `parseWeekJsonFromText` returns a
week with exactly 7 day entries, one per canonical weekday in fixed
Monday..Sunday order; each weekday's record comes from the first entry
normalizing to that weekday (so for duplicate weekdays the first occurrence
wins), and any weekday with no entry is filled with the default record
`⟨"Rest Day", "Recovery / mobility", "Load management"⟩`. -/
theorem parseWeekJson_seven_days (jsonParseOracle : String → Option WeekJson)
    (text candidate : String) (parsed : WeekJson) (entries : List DayEntryJson)
    (expectedWeek : Int)
    (hext : extractJsonCandidate text = some candidate)
    (hjson : jsonParseOracle candidate = some parsed)
    (hdays : parsed.days = some entries) :
    ∃ w, parseWeekJsonFromText jsonParseOracle text expectedWeek = some w ∧
      w.days.length = 7 ∧
      w.days.map StructuredPlanDay.day = WEEKDAY_NAMES ∧
      w.days = WEEKDAY_NAMES.map (specDayFor entries) := by
  have hdayseq : WEEKDAY_NAMES.map (fun day =>
      match mapGetKey (buildByDay entries) day with
      | some existing => existing
      | none => defaultRestDay day) = WEEKDAY_NAMES.map (specDayFor entries) := by
    apply List.map_congr_left
    intro day _
    have hlook := buildByDay_lookup entries [] day
    rw [show mapGetKey [] day = none from rfl] at hlook
    unfold buildByDay
    rw [hlook]
    unfold specDayFor
    cases firstEntryFor entries day <;> rfl
  have hparse : parseWeekJsonFromText jsonParseOracle text expectedWeek =
      some ⟨parsed.week.getD expectedWeek,
            coalesceTrim parsed.verdict "Maintenance" "Maintenance",
            coalesceTrim parsed.reasoning "Balanced load and recovery."
              "Balanced load and recovery.",
            WEEKDAY_NAMES.map (specDayFor entries)⟩ := by
    simp only [parseWeekJsonFromText, hext, hjson, buildStructuredWeek, hdays, hdayseq]
  refine ⟨_, hparse, ?_, ?_, rfl⟩
  · rw [List.length_map]
    rfl
  · rw [List.map_map]
    have hid : WEEKDAY_NAMES.map (StructuredPlanDay.day ∘ specDayFor entries) =
        WEEKDAY_NAMES.map id := by
      apply List.map_congr_left
      intro day _
      simp only [Function.comp, id]
      unfold specDayFor
      cases firstEntryFor entries day <;> rfl
    rw [hid, List.map_id]

/-- Witness for C2: the bare JSON object text with an empty `days` list
yields seven default Rest Day records. -/
theorem parseWeekJson_seven_days_witness :
    ∃ w, parseWeekJsonFromText (fun _ => some ⟨none, none, none, some []⟩) "\x7b\x7d" 1 = some w ∧
      w.days.length = 7 ∧ w.days.map StructuredPlanDay.day = WEEKDAY_NAMES ∧
      w.days = WEEKDAY_NAMES.map (specDayFor []) :=
  parseWeekJson_seven_days (fun _ => some ⟨none, none, none, some []⟩) "\x7b\x7d" "\x7b\x7d"
    ⟨none, none, none, some []⟩ [] 1 (by decide) rfl rfl

/-- C7: with plan start 2024-06-03 and a "Week 2" table containing a
Wednesday row whose workout text contains "interval" (and is not long or
rest-like), the derived event starts on civil day 2024-06-12 at minute 420
(07:00) and ends the same day at minute 490, a 70-minute duration. -/
theorem toCalendarEvents_scenario (nextMondayDay : Int) (d w det rat : String)
    (hd : dayIndexMap (lowerStr (strTrim d)) = some 2)
    (hint : containsSub (lowerStr w) "interval" = true)
    (hlong : containsSub (lowerStr w) "long" = false)
    (hrest : isRestLikeWorkout w = false) :
    toCalendarEvents nextMondayDay
      [⟨"Week 2", ["Day", "Workout Type", "Details (Distance/Pace/Zone)", "Rationale"],
        [[d, w, det, rat]]⟩] (some "2024-06-03") =
      [⟨"Frunna W2: " ++ w, daysFromCivil 2024 6 12, 420, daysFromCivil 2024 6 12, 490,
        joinWith "\n" ([det, rat].filter (fun s => !(s == "")))⟩] := by
  have hweek : extractWeekNumber "Week 2" (0 + 1) = 2 := by decide
  have hdayidx : findHeaderEq ["Day", "Workout Type", "Details (Distance/Pace/Zone)", "Rationale"]
      "day" = some 0 := by decide
  have hwork : findHeaderContaining
      ["Day", "Workout Type", "Details (Distance/Pace/Zone)", "Rationale"] "workout" = some 1 := by
    decide
  have hdet2 : findHeaderContaining
      ["Day", "Workout Type", "Details (Distance/Pace/Zone)", "Rationale"] "details" = some 2 := by
    decide
  have hrat2 : findHeaderContaining
      ["Day", "Workout Type", "Details (Distance/Pace/Zone)", "Rationale"] "rationale" =
      some 3 := by decide
  have hdur : estimatedDurationMinutes w = 70 := by
    simp only [estimatedDurationMinutes, hlong, hint]
    simp
  simp only [toCalendarEvents, List.enum, List.enumFrom, List.map, hweek, hdayidx, hwork,
    hdet2, hrat2, List.filterMap]
  simp only [List.getD, List.get?_cons_zero, List.get?_cons_succ, Option.getD_some, hd,
    hrest, Bool.false_eq_true, if_false, hdur]
  simp only [List.flatten, List.append_nil]
  rw [show ("Frunna W" ++ toString 2 ++ ": " : String) = "Frunna W2: " from by decide]
  rw [show parseIsoDateToDay "2024-06-03" + (((2 : Nat) : Int) - 1) * 7 + ((2 : Nat) : Int) =
    daysFromCivil 2024 6 12 from by decide]
  norm_num

/-- Witness for C7 at the concrete Wednesday intervals row. -/
theorem toCalendarEvents_scenario_witness :
    toCalendarEvents 0
      [⟨"Week 2", ["Day", "Workout Type", "Details (Distance/Pace/Zone)", "Rationale"],
        [["Wednesday", "Intervals", "6x800m", "VO2 development"]]⟩] (some "2024-06-03") =
      [⟨"Frunna W2: Intervals", daysFromCivil 2024 6 12, 420, daysFromCivil 2024 6 12, 490,
        joinWith "\n" (["6x800m", "VO2 development"].filter (fun s => !(s == "")))⟩] :=
  toCalendarEvents_scenario 0 "Wednesday" "Intervals" "6x800m" "VO2 development"
    (by decide) (by decide) (by decide) (by decide)

theorem runWeeks_append (cfg : OrchConfig) (l1 l2 : List Nat) (st0 st : OrchState)
    (h : runWeeks cfg l1 st0 = (Except.ok (), st)) :
    runWeeks cfg (l1 ++ l2) st0 = runWeeks cfg l2 st := by
  induction l1 generalizing st0 with
  | nil =>
    simp only [runWeeks, Prod.mk.injEq] at h
    rw [List.nil_append, h.2]
  | cons wk rest ih =>
    rw [List.cons_append]
    simp only [runWeeks] at h ⊢
    cases hs : weekStep cfg (joinWith "\n\n" st0.historySummaries) wk with
    | error e1 =>
      rw [hs] at h
      simp at h
    | ok pair =>
      rw [hs] at h
      obtain ⟨text, tables⟩ := pair
      exact ih _ h

/-- C3: when, during week `week`'s iteration, a generation request fails with
an error whose message is not context-window-like, the whole run returns that
error unchanged together with the state already accumulated and published for
the earlier completed weeks — no later week is attempted (the result is
independent of `post`) and nothing is rolled back; correspondingly for
`buildWeeklyPlan` on the matching plan length. -/
theorem buildWeeklyPlan_aborts_on_fatal (cfg : OrchConfig) (pre post : List Nat) (week : Nat)
    (e : String) (st : OrchState)
    (hpre : runWeeks cfg pre initOrchState = (Except.ok (), st))
    (hfail : reachesGenFailure cfg (joinWith "\n\n" st.historySummaries) week e)
    (hnotcw : looksLikeContextWindowError e = false) :
    runWeeks cfg (pre ++ week :: post) initOrchState = (Except.error e, st) ∧
    (∀ n, n ≤ 12 → (List.range n).map (· + 1) = pre ++ week :: post →
      buildWeeklyPlan cfg n = (Except.error e, st)) := by
  have hstep : weekStep cfg (joinWith "\n\n" st.historySummaries) week = Except.error e := by
    unfold weekStep
    rcases hfail with hf | ⟨e1, hf1, hcw1, hf2⟩
    · rw [hf]
      simp [hnotcw]
    · rw [hf1]
      simp only [hcw1, if_true]
      rw [hf2]
  have hmain : runWeeks cfg (pre ++ week :: post) initOrchState = (Except.error e, st) := by
    rw [runWeeks_append cfg pre (week :: post) initOrchState st hpre]
    simp only [runWeeks]
    rw [hstep]
  refine ⟨hmain, fun n hn hlist => ?_⟩
  unfold buildWeeklyPlan
  rw [if_pos hn, hlist]
  exact hmain

/-- Witness for C3: a generator that always fails with "boom" (not
context-window-like) aborts a two-week plan at week 1 with the error
unchanged and the initial (empty) published state. -/
theorem buildWeeklyPlan_aborts_on_fatal_witness :
    runWeeks ⟨fun _ => Except.error "boom", fun _ => none, fun _ _ => "p", fun _ _ => "q",
        4, "Sunday"⟩ ([] ++ 1 :: [2]) initOrchState = (Except.error "boom", initOrchState) ∧
    buildWeeklyPlan ⟨fun _ => Except.error "boom", fun _ => none, fun _ _ => "p", fun _ _ => "q",
        4, "Sunday"⟩ 2 = (Except.error "boom", initOrchState) := by
  have h := buildWeeklyPlan_aborts_on_fatal
    ⟨fun _ => Except.error "boom", fun _ => none, fun _ _ => "p", fun _ _ => "q", 4, "Sunday"⟩
    [] [2] 1 "boom" initOrchState rfl (Or.inl rfl) (by decide)
  exact ⟨h.1, h.2 2 (by norm_num) (by decide)⟩

theorem lt_of_getElem?_some (l : List (List String)) (k : Nat) (r : List String)
    (h : l[k]? = some r) : k < l.length := by
  by_contra hc
  rw [List.getElem?_eq_none (Nat.le_of_not_lt hc)] at h
  cases h

theorem natList_contains_iff (l : List Nat) (x : Nat) : l.contains x = true ↔ x ∈ l := by
  simp [List.contains]

theorem filter_enum_snd_length (rows : List (List String)) (q : List String → Bool) :
    (rows.enum.filter (fun p => q p.2)).length = (rows.filter q).length := by
  have e1 : rows.enum.filter (fun p => q p.2) = rows.enum.filter (q ∘ Prod.snd) := rfl
  rw [e1, ← List.length_map (rows.enum.filter (q ∘ Prod.snd)) Prod.snd, ← List.filter_map,
    List.enum_map_snd]

theorem filter_enum_fst_length (rows : List (List String)) (c : Nat → Bool) :
    (rows.enum.filter (fun p => c p.1)).length = ((List.range rows.length).filter c).length := by
  have e1 : rows.enum.filter (fun p => c p.1) = rows.enum.filter (c ∘ Prod.fst) := rfl
  rw [e1, ← List.length_map (rows.enum.filter (c ∘ Prod.fst)) Prod.fst, ← List.filter_map,
    List.enum_map_fst]

theorem range_filter_contains_length (n : Nat) (keep : List Nat) (hnd : keep.Nodup)
    (hlt : ∀ k ∈ keep, k < n) :
    ((List.range n).filter (fun k => keep.contains k)).length = keep.length := by
  have h1 : List.Subperm keep ((List.range n).filter (fun k => keep.contains k)) := by
    apply hnd.subperm
    intro k hk
    exact List.mem_filter.mpr ⟨List.mem_range.mpr (hlt k hk), (natList_contains_iff keep k).mpr hk⟩
  have h2 : List.Subperm ((List.range n).filter (fun k => keep.contains k)) keep := by
    apply List.Nodup.subperm
    · exact (List.nodup_range n).sublist (List.filter_sublist _)
    · intro k hk
      exact (natList_contains_iff keep k).mp (List.mem_filter.mp hk).2
  exact (h1.antisymm h2).length_eq.symm

theorem demoteRow_isRest (workoutIdx : Nat) (detailsIdx rationaleIdx : Option Nat) (cap : Nat)
    (row : List String)
    (hdet : ∀ k, detailsIdx = some k → k ≠ workoutIdx)
    (hrat : ∀ k, rationaleIdx = some k → k ≠ workoutIdx) :
    isRestLikeWorkout ((demoteRow workoutIdx detailsIdx rationaleIdx cap row).getD
      workoutIdx "") = true := by
  have h1 : (setCell row workoutIdx "Rest Day").getD workoutIdx "" = "Rest Day" := by
    have := setCell_getElem?_self row workoutIdx "Rest Day"
    simp [List.getD, this]
  have hRest : isRestLikeWorkout "Rest Day" = true := by decide
  unfold demoteRow
  cases hdi : detailsIdx with
  | none =>
    cases hri : rationaleIdx with
    | none =>
      rw [h1]
      exact hRest
    | some ri =>
      rw [setCell_getD_ne _ ri workoutIdx _ (hrat ri hri), h1]
      exact hRest
  | some di =>
    cases hri : rationaleIdx with
    | none =>
      rw [setCell_getD_ne _ di workoutIdx _ (hdet di hdi), h1]
      exact hRest
    | some ri =>
      rw [setCell_getD_ne _ ri workoutIdx _ (hrat ri hri),
        setCell_getD_ne _ di workoutIdx _ (hdet di hdi), h1]
      exact hRest

theorem keep_facts (rows : List (List String)) (workoutIdx dayIdx lri cap : Nat)
    (hgt : cap < (rows.enum.filter
      (fun p => !(isRestLikeWorkout (p.2.getD workoutIdx "")))).length) :
    ((((List.insertionSort scoreRel ((rows.enum.filter
        (fun p => !(isRestLikeWorkout (p.2.getD workoutIdx "")))).map
        (scoreRow lri dayIdx workoutIdx))).take cap).map ScoredRow.idx).length = cap) ∧
    ((((List.insertionSort scoreRel ((rows.enum.filter
        (fun p => !(isRestLikeWorkout (p.2.getD workoutIdx "")))).map
        (scoreRow lri dayIdx workoutIdx))).take cap).map ScoredRow.idx).Nodup) ∧
    (∀ k ∈ (((List.insertionSort scoreRel ((rows.enum.filter
        (fun p => !(isRestLikeWorkout (p.2.getD workoutIdx "")))).map
        (scoreRow lri dayIdx workoutIdx))).take cap).map ScoredRow.idx),
      ∃ r, rows[k]? = some r ∧ isRestLikeWorkout (r.getD workoutIdx "") = false) := by
  set active := rows.enum.filter (fun p => !(isRestLikeWorkout (p.2.getD workoutIdx "")))
    with hactive
  set scored := active.map (scoreRow lri dayIdx workoutIdx) with hscored
  set sorted := List.insertionSort scoreRel scored with hsorted
  have hperm : List.Perm sorted scored := List.perm_insertionSort scoreRel scored
  have hlen : sorted.length = active.length := by
    rw [hperm.length_eq, hscored, List.length_map]
  have hidxmap : scored.map ScoredRow.idx = active.map Prod.fst := by
    rw [hscored, List.map_map]
    rfl
  have hfstNodup : (active.map Prod.fst).Nodup := by
    have hsub : List.Sublist (active.map Prod.fst) (rows.enum.map Prod.fst) :=
      (List.filter_sublist _).map _
    rw [List.enum_map_fst] at hsub
    exact (List.nodup_range _).sublist hsub
  have hmt : (sorted.take cap).map ScoredRow.idx = (sorted.map ScoredRow.idx).take cap :=
    List.map_take _ _ _
  have hpermidx : List.Perm (sorted.map ScoredRow.idx) (active.map Prod.fst) := by
    rw [← hidxmap]
    exact hperm.map _
  refine ⟨?_, ?_, ?_⟩
  · rw [List.length_map, List.length_take, hlen]
    omega
  · rw [hmt]
    exact (hpermidx.nodup_iff.mpr hfstNodup).sublist (List.take_sublist _ _)
  · intro k hk
    rw [hmt] at hk
    have hk2 : k ∈ sorted.map ScoredRow.idx := (List.take_sublist _ _).subset hk
    obtain ⟨sr, hsr, hsrk⟩ := List.mem_map.mp hk2
    have hsr2 : sr ∈ scored := hperm.subset hsr
    obtain ⟨p, hp, hpeq⟩ := List.mem_map.mp hsr2
    obtain ⟨j, r⟩ := p
    have hpe := List.mem_filter.mp hp
    have hrowk : rows[j]? = some r := List.mk_mem_enum_iff_getElem?.mp hpe.1
    have hjk : j = k := by
      have : (scoreRow lri dayIdx workoutIdx (j, r)).idx = k := by rw [hpeq, hsrk]
      exact this
    subst hjk
    refine ⟨r, hrowk, ?_⟩
    have := hpe.2
    simpa using this

theorem getD_cell_eq (l : List String) (i : Nat) : l.getD i "" = (l[i]?).getD "" := by
  simp [List.getD]

theorem getD_row_eq (l : List (List String)) (i : Nat) : l.getD i [] = (l[i]?).getD [] := by
  simp [List.getD]

theorem clamped_out_getD (rows : List (List String)) (g : Nat × List String → List String)
    (i : Nat) (hi : i < rows.length) :
    (rows.enum.map g).getD i [] = g (i, rows.getD i []) := by
  have h1 : (rows.enum.map g)[i]? = (rows.enum[i]?).map g := List.getElem?_map g rows.enum i
  have h2 : rows.enum[i]? = rows[i]?.map (fun a => (i, a)) := by simp [List.getElem?_enum]
  obtain ⟨r, hr⟩ : ∃ r, rows[i]? = some r := by
    cases hq : rows[i]? with
    | none =>
      rw [List.getElem?_eq_none_iff] at hq
      omega
    | some r => exact ⟨r, rfl⟩
  rw [getD_row_eq, h1, h2, hr, getD_row_eq, hr]
  rfl

theorem clamped_rows_spec (rows : List (List String)) (workoutIdx : Nat)
    (detailsIdx rationaleIdx : Option Nat) (cap : Nat) (keep : List Nat)
    (hdet : ∀ k, detailsIdx = some k → k ≠ workoutIdx)
    (hrat : ∀ k, rationaleIdx = some k → k ≠ workoutIdx)
    (hK1 : keep.length = cap) (hK2 : keep.Nodup)
    (hK3 : ∀ k ∈ keep, ∃ r, rows[k]? = some r ∧
      isRestLikeWorkout (r.getD workoutIdx "") = false) :
    ((rows.enum.map (fun p =>
      if keep.contains p.1 || isRestLikeWorkout (p.2.getD workoutIdx "") then p.2
      else demoteRow workoutIdx detailsIdx rationaleIdx cap p.2)).length = rows.length) ∧
    (((rows.enum.map (fun p =>
      if keep.contains p.1 || isRestLikeWorkout (p.2.getD workoutIdx "") then p.2
      else demoteRow workoutIdx detailsIdx rationaleIdx cap p.2)).filter
        (fun row => !(isRestLikeWorkout (row.getD workoutIdx "")))).length = cap) ∧
    (∀ i, i < rows.length →
      isRestLikeWorkout (((rows.enum.map (fun p =>
        if keep.contains p.1 || isRestLikeWorkout (p.2.getD workoutIdx "") then p.2
        else demoteRow workoutIdx detailsIdx rationaleIdx cap p.2)).getD i []).getD
          workoutIdx "") = false →
      (rows.enum.map (fun p =>
        if keep.contains p.1 || isRestLikeWorkout (p.2.getD workoutIdx "") then p.2
        else demoteRow workoutIdx detailsIdx rationaleIdx cap p.2)).getD i [] =
        rows.getD i [] ∧
      isRestLikeWorkout ((rows.getD i []).getD workoutIdx "") = false) := by
  set g : Nat × List String → List String := fun p =>
    if keep.contains p.1 || isRestLikeWorkout (p.2.getD workoutIdx "") then p.2
    else demoteRow workoutIdx detailsIdx rationaleIdx cap p.2 with hg
  have hgPos : ∀ k r, keep.contains k = true → g (k, r) = r := by
    intro k r hc
    show (if keep.contains k || isRestLikeWorkout (r.getD workoutIdx "") then r
          else demoteRow workoutIdx detailsIdx rationaleIdx cap r) = r
    rw [hc, Bool.true_or]
    rfl
  have hgRest : ∀ k r, isRestLikeWorkout (r.getD workoutIdx "") = true → g (k, r) = r := by
    intro k r hr
    show (if keep.contains k || isRestLikeWorkout (r.getD workoutIdx "") then r
          else demoteRow workoutIdx detailsIdx rationaleIdx cap r) = r
    rw [hr, Bool.or_true]
    rfl
  have hgNeg : ∀ k r, keep.contains k = false →
      isRestLikeWorkout (r.getD workoutIdx "") = false →
      g (k, r) = demoteRow workoutIdx detailsIdx rationaleIdx cap r := by
    intro k r hc hr
    show (if keep.contains k || isRestLikeWorkout (r.getD workoutIdx "") then r
          else demoteRow workoutIdx detailsIdx rationaleIdx cap r) =
      demoteRow workoutIdx detailsIdx rationaleIdx cap r
    rw [hc, hr, Bool.or_self]
    rfl
  have hgIff : ∀ k r, rows[k]? = some r →
      (isRestLikeWorkout ((g (k, r)).getD workoutIdx "") = false ↔ keep.contains k = true) := by
    intro k r hkr
    constructor
    · intro hout
      by_contra hcne
      have hc : keep.contains k = false := by
        cases hcv : keep.contains k
        · rfl
        · exact absurd hcv hcne
      cases hr : isRestLikeWorkout (r.getD workoutIdx "") with
      | true =>
        rw [hgRest k r hr, hr] at hout
        cases hout
      | false =>
        rw [hgNeg k r hc hr, demoteRow_isRest workoutIdx detailsIdx rationaleIdx cap r hdet hrat]
          at hout
        cases hout
    · intro hc
      obtain ⟨r2, hr2, hrest2⟩ := hK3 k ((natList_contains_iff keep k).mp hc)
      have hrr : r2 = r := by
        rw [hkr] at hr2
        exact (Option.some.injEq _ _).mp hr2.symm
      subst hrr
      rw [hgPos k r2 hc]
      exact hrest2
  refine ⟨by simp [List.enum_length], ?_, ?_⟩
  · have e1 : rows.enum.filter (fun p => !(isRestLikeWorkout ((g p).getD workoutIdx ""))) =
        rows.enum.filter ((fun row => !(isRestLikeWorkout (row.getD workoutIdx ""))) ∘ g) := rfl
    have hcong : (rows.enum.map g).filter
        (fun row => !(isRestLikeWorkout (row.getD workoutIdx ""))) =
        ((rows.enum.filter (fun p => !(isRestLikeWorkout ((g p).getD workoutIdx "")))).map g) := by
      rw [e1, ← List.filter_map]
    rw [hcong, List.length_map]
    have hcong2 : rows.enum.filter (fun p => !(isRestLikeWorkout ((g p).getD workoutIdx ""))) =
        rows.enum.filter (fun p => keep.contains p.1) := by
      apply List.filter_congr
      intro p hp
      obtain ⟨k, r⟩ := p
      have hkr : rows[k]? = some r := List.mk_mem_enum_iff_getElem?.mp hp
      have hiff := hgIff k r hkr
      show (!(isRestLikeWorkout ((g (k, r)).getD workoutIdx ""))) = keep.contains k
      cases hc : keep.contains k with
      | true =>
        rw [hiff.mpr hc]
        rfl
      | false =>
        cases hr2 : isRestLikeWorkout ((g (k, r)).getD workoutIdx "") with
        | false =>
          have := hiff.mp hr2
          rw [this] at hc
          cases hc
        | true => rfl
    rw [hcong2, filter_enum_fst_length]
    rw [range_filter_contains_length rows.length keep hK2
      (fun k hk => by
        obtain ⟨r, hr, _⟩ := hK3 k hk
        exact lt_of_getElem?_some rows k r hr)]
    exact hK1
  · intro i hi hrest
    rw [clamped_out_getD rows g i hi] at hrest ⊢
    obtain ⟨r, hr⟩ : ∃ r, rows[i]? = some r := by
      cases hq : rows[i]? with
      | none =>
        rw [List.getElem?_eq_none_iff] at hq
        omega
      | some r => exact ⟨r, rfl⟩
    have hgd : rows.getD i [] = r := by
      rw [getD_row_eq, hr]
      rfl
    rw [hgd] at hrest ⊢
    have hc : keep.contains i = true := (hgIff i r hr).mp hrest
    obtain ⟨r2, hr2, hrest2⟩ := hK3 i ((natList_contains_iff keep i).mp hc)
    have hrr : r2 = r := by
      rw [hr] at hr2
      exact (Option.some.injEq _ _).mp hr2.symm
    subst hrr
    exact ⟨hgPos i r2 hc, hrest2⟩

theorem clampTable_pos_eq (cap : Nat) (lrd : String) (t : PlanTable) (dayIdx workoutIdx : Nat)
    (hday : findHeaderEq t.headers "day" = some dayIdx)
    (hwork : findHeaderContaining t.headers "workout" = some workoutIdx)
    (hgt : ¬((t.rows.enum.filter
      (fun p => !(isRestLikeWorkout (p.2.getD workoutIdx "")))).length ≤ cap)) :
    clampTable cap lrd t = ⟨t.headers, t.rows.enum.map (fun p =>
      if (((List.insertionSort scoreRel ((t.rows.enum.filter
            (fun p2 => !(isRestLikeWorkout (p2.2.getD workoutIdx "")))).map
            (scoreRow ((dayIndexMap (lowerStr lrd)).getD 6) dayIdx workoutIdx))).take cap).map
            ScoredRow.idx).contains p.1 || isRestLikeWorkout (p.2.getD workoutIdx "") then p.2
      else demoteRow workoutIdx (findHeaderContaining t.headers "details")
        (findHeaderContaining t.headers "rationale") cap p.2)⟩ := by
  simp only [clampTable, hday, hwork]
  rw [if_neg hgt]

set_option maxHeartbeats 1600000 in
/-- C1 amended: for a table with a day column and a workout column whose
"details" and "rationale" header searches do not resolve to the workout
column itself, when the non-rest-like row count exceeds the cap,
`clampWeekToRunDayCap` returns a table with exactly `cap` non-rest-like rows;
every non-rest-like output row is the unchanged input row at the same
position (so the kept rows are a subset of the input's non-rest-like rows
and row order is preserved), and the header list and row count are
unchanged. -/
theorem clampTable_enforces_cap (t : PlanTable) (cap : Nat) (lrd : String)
    (dayIdx workoutIdx : Nat)
    (hday : findHeaderEq t.headers "day" = some dayIdx)
    (hwork : findHeaderContaining t.headers "workout" = some workoutIdx)
    (hdet : ∀ k, findHeaderContaining t.headers "details" = some k → k ≠ workoutIdx)
    (hrat : ∀ k, findHeaderContaining t.headers "rationale" = some k → k ≠ workoutIdx)
    (hover : cap < tableNonRestCount workoutIdx t) :
    clampWeekToRunDayCap [t] cap lrd = [clampTable cap lrd t] ∧
    (clampTable cap lrd t).headers = t.headers ∧
    (clampTable cap lrd t).rows.length = t.rows.length ∧
    tableNonRestCount workoutIdx (clampTable cap lrd t) = cap ∧
    (∀ i, i < t.rows.length →
      rowIsRest workoutIdx ((clampTable cap lrd t).rows.getD i []) = false →
      (clampTable cap lrd t).rows.getD i [] = t.rows.getD i [] ∧
      rowIsRest workoutIdx (t.rows.getD i []) = false) := by
  have hALen : (t.rows.enum.filter
      (fun p => !(isRestLikeWorkout (p.2.getD workoutIdx "")))).length =
      tableNonRestCount workoutIdx t :=
    filter_enum_snd_length t.rows (fun row => !(isRestLikeWorkout (row.getD workoutIdx "")))
  have hgt : ¬((t.rows.enum.filter
      (fun p => !(isRestLikeWorkout (p.2.getD workoutIdx "")))).length ≤ cap) := by
    rw [Nat.not_le, hALen]
    exact hover
  have hclamp := clampTable_pos_eq cap lrd t dayIdx workoutIdx hday hwork hgt
  have hkf := keep_facts t.rows workoutIdx dayIdx ((dayIndexMap (lowerStr lrd)).getD 6) cap
    (by rw [hALen]; exact hover)
  have hspec := clamped_rows_spec t.rows workoutIdx (findHeaderContaining t.headers "details")
    (findHeaderContaining t.headers "rationale") cap
    (((List.insertionSort scoreRel ((t.rows.enum.filter
        (fun p => !(isRestLikeWorkout (p.2.getD workoutIdx "")))).map
        (scoreRow ((dayIndexMap (lowerStr lrd)).getD 6) dayIdx workoutIdx))).take cap).map
        ScoredRow.idx)
    hdet hrat hkf.1 hkf.2.1 hkf.2.2
  refine ⟨rfl, ?_, ?_, ?_, ?_⟩
  · rw [hclamp]
  · rw [hclamp]
    exact hspec.1
  · rw [hclamp]
    exact hspec.2.1
  · intro i hi hrest
    rw [hclamp] at hrest ⊢
    exact hspec.2.2 i hi hrest

/-- Witness for C1 at a concrete canonical table with 3 non-rest rows and
cap 2. -/
theorem clampTable_enforces_cap_witness :
    clampWeekToRunDayCap
        [⟨["Day", "Workout Type"], [["Mon", "Easy Run"], ["Tue", "Tempo Run"], ["Wed", "Easy Run"]]⟩]
        2 "Sunday" =
      [clampTable 2 "Sunday"
        ⟨["Day", "Workout Type"], [["Mon", "Easy Run"], ["Tue", "Tempo Run"], ["Wed", "Easy Run"]]⟩] ∧
    tableNonRestCount 1 (clampTable 2 "Sunday"
      ⟨["Day", "Workout Type"], [["Mon", "Easy Run"], ["Tue", "Tempo Run"], ["Wed", "Easy Run"]]⟩) = 2 := by
  have h := clampTable_enforces_cap
    ⟨["Day", "Workout Type"], [["Mon", "Easy Run"], ["Tue", "Tempo Run"], ["Wed", "Easy Run"]]⟩
    2 "Sunday" 0 1 (by decide) (by decide)
    (fun k hk => by
      rw [show findHeaderContaining ["Day", "Workout Type"] "details" = none from by decide] at hk
      cases hk)
    (fun k hk => by
      rw [show findHeaderContaining ["Day", "Workout Type"] "rationale" = none from by decide] at hk
      cases hk)
    (by decide)
  exact ⟨h.1, h.2.2.2.1⟩
